import Mathlib

/-!
Shallow embedding of the BSDF / ray-scattering core of the CUDA path tracer
(`src/interactions.h`).  Floating-point vectors (`glm::vec3`) are modelled as
triples of real numbers; the per-ray pseudorandom engine together with the
uniform [0,1) distribution is modelled as an explicit stream of real draws
advanced by an index.  Each C++ function becomes a Lean function; the in-place
mutation of the `PathSegment` and of the RNG becomes explicit state passing.
-/

namespace PathTracer

noncomputable section

/-- A 3-component vector, modelling `glm::vec3`. -/
structure Vec3 where
  x : ℝ
  y : ℝ
  z : ℝ

def add (a b : Vec3) : Vec3 := ⟨a.x + b.x, a.y + b.y, a.z + b.z⟩

def sub (a b : Vec3) : Vec3 := ⟨a.x - b.x, a.y - b.y, a.z - b.z⟩

/-- Scalar multiplication. -/
def smul (c : ℝ) (v : Vec3) : Vec3 := ⟨c * v.x, c * v.y, c * v.z⟩

/-- Component-wise product, modelling `glm::vec3 operator*` on two vectors
(as used by `color *= m.color`). -/
def cmul (a b : Vec3) : Vec3 := ⟨a.x * b.x, a.y * b.y, a.z * b.z⟩

def dot (a b : Vec3) : ℝ := a.x * b.x + a.y * b.y + a.z * b.z

def cross (a b : Vec3) : Vec3 :=
  ⟨a.y * b.z - a.z * b.y, a.z * b.x - a.x * b.z, a.x * b.y - a.y * b.x⟩

/-- `glm::length`. -/
def length (v : Vec3) : ℝ := Real.sqrt (dot v v)

/-- `glm::normalize` (multiplication by the inverse square root of the
squared length). -/
def normalize (v : Vec3) : Vec3 := smul (1 / length v) v

/-- `glm::reflect(I, N) = I - 2 * dot(N, I) * N`. -/
def reflect (I N : Vec3) : Vec3 := sub I (smul (2 * dot N I) N)

/-- `glm::refract(I, N, eta)`: with `k = 1 - eta^2 * (1 - dot(N,I)^2)`,
returns the zero vector when `k < 0` and
`eta*I - (eta*dot(N,I) + sqrt k)*N` otherwise. -/
def refract (I N : Vec3) (eta : ℝ) : Vec3 :=
  if 1 - eta * eta * (1 - dot N I * dot N I) < 0 then ⟨0, 0, 0⟩
  else
    sub (smul eta I)
      (smul (eta * dot N I + Real.sqrt (1 - eta * eta * (1 - dot N I * dot N I))) N)

/-- `glm::clamp` on one component: `min (max x lo) hi`. -/
def clamp1 (x lo hi : ℝ) : ℝ := min (max x lo) hi

/-- `glm::clamp` component-wise. -/
def clampV (v lo hi : Vec3) : Vec3 :=
  ⟨clamp1 v.x lo.x hi.x, clamp1 v.y lo.y hi.y, clamp1 v.z lo.z hi.z⟩

/-- Modelled from the spec: the small self-intersection offset `EPSILON`
(defined in the repository's `utilities.h`, which is not under `src/`); the
spec only calls it "a small fixed epsilon". -/
def EPSILON : ℝ := 0.00001

/-- Modelled from the spec: `TWO_PI` from `utilities.h` (not under `src/`);
the spec gives the angle as `2π·u2`. -/
def TWO_PI : ℝ := 2 * Real.pi

/-- Modelled from the spec: `SQRT_OF_ONE_THIRD` from `utilities.h` (not under
`src/`); the spec gives the axis-selection threshold as `1/√3`. -/
def SQRT_OF_ONE_THIRD : ℝ := Real.sqrt (1 / 3)

/-- Modelled from the spec: the per-ray RNG stream together with the uniform
[0,1) distribution (`thrust::default_random_engine` with
`thrust::uniform_real_distribution<float>`, from headers not under `src/`).
The spec describes it as a stateful stream of uniform [0,1) draws advanced by
each draw; we model it as a fixed stream of reals plus a cursor. -/
structure RNG where
  draws : ℕ → ℝ
  idx : ℕ

/-- One draw `u01(rng)`: returns the next value of the stream and advances
the cursor. -/
def u01 (rng : RNG) : ℝ × RNG := (rng.draws rng.idx, ⟨rng.draws, rng.idx + 1⟩)

/-- Modelled from the spec: the `Ray` record (declared in `sceneStructs.h`,
not under `src/`): an origin point and a direction vector. -/
structure Ray where
  origin : Vec3
  direction : Vec3

/-- Modelled from the spec: the `PathSegment` record (declared in
`sceneStructs.h`, not under `src/`): it owns a `Ray`, an accumulated
color/throughput and a remaining-bounce counter; the `pixelIndex` field
stands for the segment's bookkeeping data that the scatter core never
touches, so that frame conditions can be expressed. -/
structure PathSegment where
  ray : Ray
  color : Vec3
  pixelIndex : ℤ
  remainingBounces : ℤ

/-- Modelled from the spec: the specular sub-structure of a `Material`
(declared in `sceneStructs.h`, not under `src/`), with its own color. -/
structure Specular where
  color : Vec3

/-- Modelled from the spec: the `Material` record (declared in
`sceneStructs.h`, not under `src/`): base color, specular sub-structure,
float-valued flags `hasReflective` / `hasRefractive`, and an index of
refraction. -/
structure Material where
  color : Vec3
  specular : Specular
  hasReflective : ℝ
  hasRefractive : ℝ
  indexOfRefraction : ℝ

/-- The axis used to build a basis around `normal` in
`calculateRandomDirectionInHemisphere` (`interactions.h` lines 24–31). -/
def directionNotNormal (normal : Vec3) : Vec3 :=
  if |normal.x| < SQRT_OF_ONE_THIRD then ⟨1, 0, 0⟩
  else if |normal.y| < SQRT_OF_ONE_THIRD then ⟨0, 1, 0⟩
  else ⟨0, 0, 1⟩

/-- First basis vector perpendicular to `normal`
(`interactions.h` lines 34–35). -/
def perpendicularDirection1 (normal : Vec3) : Vec3 :=
  normalize (cross normal (directionNotNormal normal))

/-- Second basis vector perpendicular to `normal`
(`interactions.h` lines 36–37). -/
def perpendicularDirection2 (normal : Vec3) : Vec3 :=
  normalize (cross normal (perpendicularDirection1 normal))

/-- `calculateRandomDirectionInHemisphere` (`interactions.h` lines 10–42):
draws `u1` then `u2`, sets `up = sqrt u1`, `over = sqrt (1 - up*up)`,
`around = u2 * TWO_PI`, and returns
`up*normal + cos(around)*over*t1 + sin(around)*over*t2` together with the
advanced RNG. -/
def calculateRandomDirectionInHemisphere (normal : Vec3) (rng : RNG) :
    Vec3 × RNG :=
  let up := Real.sqrt (u01 rng).1
  let over := Real.sqrt (1 - up * up)
  let around := (u01 (u01 rng).2).1 * TWO_PI
  (add (smul up normal)
      (add (smul (Real.cos around * over) (perpendicularDirection1 normal))
        (smul (Real.sin around * over) (perpendicularDirection2 normal))),
    (u01 (u01 rng).2).2)

/-- `lambertianBSDF` (`interactions.h` lines 44–55): new direction is a
hemisphere sample around the normal; the origin is offset by `EPSILON`
along the normal. -/
def lambertianBSDF (pathSegment : PathSegment) (intersect normal : Vec3)
    (m : Material) (rng : RNG) : PathSegment × RNG :=
  ({ pathSegment with
      ray := { origin := add intersect (smul EPSILON normal),
               direction := (calculateRandomDirectionInHemisphere normal rng).1 } },
    (calculateRandomDirectionInHemisphere normal rng).2)

/-- `specularBSDF` (`interactions.h` lines 57–70): mirror reflection about
the normal, origin offset `0.001` along the normal, color multiplied by the
material's specular color.  The RNG is not drawn from. -/
def specularBSDF (pathSegment : PathSegment) (intersect normal : Vec3)
    (m : Material) (rng : RNG) : PathSegment × RNG :=
  ({ pathSegment with
      ray := { origin := add intersect (smul 0.001 normal),
               direction := reflect pathSegment.ray.direction normal },
      color := cmul pathSegment.color m.specular.color },
    rng)

/-- `schlick` (`interactions.h` lines 71–75):
`r0 = ((1-η)/(1+η))^2; r0 + (1-r0)*(1-cos)^5`. -/
def schlick (cos reflectIndex : ℝ) : ℝ :=
  ((1 - reflectIndex) / (1 + reflectIndex)) ^ 2 +
    (1 - ((1 - reflectIndex) / (1 + reflectIndex)) ^ 2) * (1 - cos) ^ 5

/-- Line 89 of `interactions.h`: η is the material's index of refraction
when the ray starts inside the medium (`dot(direction, normal) > 0`), its
reciprocal otherwise. -/
def schlickEta (origin_direction normal : Vec3) (ior : ℝ) : ℝ :=
  if dot origin_direction normal > 0 then ior else 1 / ior

/-- Line 91 of `interactions.h`: the normal flipped to face against the
incident ray when inside, normalized either way. -/
def schlickOutwardNormal (origin_direction normal : Vec3) : Vec3 :=
  if dot origin_direction normal > 0 then normalize (smul (-1) normal)
  else normalize normal

/-- Line 94 of `interactions.h`: the Snell refracted direction of the
normalized incident direction about the outward normal. -/
def schlickRefractDir (origin_direction normal : Vec3) (ior : ℝ) : Vec3 :=
  refract (normalize origin_direction) (schlickOutwardNormal origin_direction normal)
    (schlickEta origin_direction normal ior)

/-- `schlickBSDF` (`interactions.h` lines 76–110).  Total internal
reflection (refracted length below `0.01`) zeroes the color and falls back
to the mirror reflection about the original normal; otherwise the Schlick
reflectance of the raw incident cosine decides, against one fresh uniform
draw, between reflection and the refracted direction.  The origin is offset
by `EPSILON` along the chosen direction and the color is multiplied by the
specular color. -/
def schlickBSDF (pathSegment : PathSegment) (intersect normal : Vec3)
    (m : Material) (rng : RNG) : PathSegment × RNG :=
  let origin_direction := pathSegment.ray.direction
  let direction := schlickRefractDir origin_direction normal m.indexOfRefraction
  let tirColor :=
    if length direction < 0.01 then smul 0 pathSegment.color
    else pathSegment.color
  let direction1 :=
    if length direction < 0.01 then reflect origin_direction normal
    else direction
  let reflectProb := schlick (dot origin_direction normal) m.indexOfRefraction
  let sampleFloat := (u01 rng).1
  let newDirection :=
    if reflectProb < sampleFloat then reflect origin_direction normal
    else direction1
  ({ pathSegment with
      ray := { origin := add intersect (smul EPSILON newDirection),
               direction := newDirection },
      color := cmul tirColor m.specular.color },
    (u01 rng).2)

/-- The dispatcher's branch on the material flags
(`interactions.h` lines 152–163): reflective first, then refractive, else
diffuse; a flag is tested by float equality with `1.0`. -/
def scatterBranch (pathSegment : PathSegment) (intersect normal : Vec3)
    (m : Material) (rng : RNG) : PathSegment × RNG :=
  if m.hasReflective = 1 then specularBSDF pathSegment intersect normal m rng
  else if m.hasRefractive = 1 then schlickBSDF pathSegment intersect normal m rng
  else lambertianBSDF pathSegment intersect normal m rng

/-- The dispatcher's unconditional tail (`interactions.h` lines 164–166):
decrement the bounce counter, multiply the color by the base material color,
clamp each component to [0,1]. -/
def dispatchPost (m : Material) (pr : PathSegment × RNG) : PathSegment × RNG :=
  ({ pr.1 with
      remainingBounces := pr.1.remainingBounces - 1,
      color := clampV (cmul pr.1.color m.color) ⟨0, 0, 0⟩ ⟨1, 1, 1⟩ },
    pr.2)

/-- `scatterRay` (`interactions.h` lines 137–167): one uniform draw (its
value unused by the branch decision), the per-material branch, then the
unconditional tail. -/
def scatterRay (pathSegment : PathSegment) (intersect normal : Vec3)
    (m : Material) (rng : RNG) : PathSegment × RNG :=
  dispatchPost m (scatterBranch pathSegment intersect normal m (u01 rng).2)

/-! ### Basic vector algebra lemmas -/

theorem dot_comm (a b : Vec3) : dot a b = dot b a := by
  simp only [dot]; ring

theorem dot_self_nonneg (v : Vec3) : 0 ≤ dot v v := by
  simp only [dot]
  nlinarith [sq_nonneg v.x, sq_nonneg v.y, sq_nonneg v.z]

theorem length_eq_one_iff (v : Vec3) : length v = 1 ↔ dot v v = 1 := by
  unfold length
  exact Real.sqrt_eq_one

theorem dot_smul_left (c : ℝ) (v w : Vec3) : dot (smul c v) w = c * dot v w := by
  simp only [dot, smul]; ring

theorem dot_smul_right (c : ℝ) (v w : Vec3) : dot v (smul c w) = c * dot v w := by
  simp only [dot, smul]; ring

theorem dot_normalize_self (v : Vec3) (h : dot v v ≠ 0) :
    dot (normalize v) (normalize v) = 1 := by
  have h0 : 0 ≤ dot v v := dot_self_nonneg v
  have hpos : 0 < dot v v := lt_of_le_of_ne h0 (Ne.symm h)
  have hs : Real.sqrt (dot v v) * Real.sqrt (dot v v) = dot v v :=
    Real.mul_self_sqrt h0
  have hsne : Real.sqrt (dot v v) ≠ 0 := by
    intro hz
    rw [hz, mul_zero] at hs
    exact h hs.symm
  unfold normalize length
  rw [dot_smul_left, dot_smul_right]
  field_simp

theorem dot_normalize_left (v w : Vec3) :
    dot (normalize v) w = (1 / length v) * dot v w := by
  unfold normalize
  exact dot_smul_left _ _ _

theorem cross_dot_self_left (a b : Vec3) : dot (cross a b) a = 0 := by
  simp only [cross, dot]; ring

theorem cross_dot_self_right (a b : Vec3) : dot (cross a b) b = 0 := by
  simp only [cross, dot]; ring

theorem cross_norm_sq (a b : Vec3) :
    dot (cross a b) (cross a b) = dot a a * dot b b - dot a b * dot a b := by
  simp only [cross, dot]; ring

/-! ### Claims about the Schlick estimator -/

/-- C6: for every cosine value and every index of refraction η > 0, `schlick`
returns `r0 + (1-r0)*(1-cos)^5` with `r0 = ((1-η)/(1+η))^2`; at cosine 1 it
returns exactly `r0`.  The Lean embedding of `schlick` is a pure function of
its two arguments, so it draws nothing from the RNG and has no side effects. -/
theorem C6_schlick_formula (c η : ℝ) (hη : 0 < η) :
    schlick c η =
      ((1 - η) / (1 + η)) ^ 2 +
        (1 - ((1 - η) / (1 + η)) ^ 2) * (1 - c) ^ 5 ∧
    schlick 1 η = ((1 - η) / (1 + η)) ^ 2 := by
  constructor
  · rfl
  · simp [schlick]

/-- Witness for C6 at cosine 1/2 and η = 3/2. -/
theorem C6_schlick_formula_witness :
    (0 : ℝ) < 3 / 2 ∧
      (schlick (1 / 2) (3 / 2) =
        ((1 - 3 / 2) / (1 + 3 / 2)) ^ 2 +
          (1 - ((1 - 3 / 2) / (1 + 3 / 2)) ^ 2) * (1 - 1 / 2) ^ 5 ∧
      schlick 1 (3 / 2) = ((1 - 3 / 2) / (1 + 3 / 2)) ^ 2) :=
  ⟨by norm_num, C6_schlick_formula (1 / 2) (3 / 2) (by norm_num)⟩

/-- For η > 0 the Fresnel base reflectance `r0` is strictly below 1. -/
theorem r0_lt_one (η : ℝ) (hη : 0 < η) : ((1 - η) / (1 + η)) ^ 2 < 1 := by
  have hd : (0 : ℝ) < 1 + η := by linarith
  rw [div_pow, div_lt_one (by positivity)]
  nlinarith

/-- C8: for η > 0 with η ≠ 1, `schlick` is monotonically non-decreasing as
the cosine decreases toward 0: for 0 ≤ c1 ≤ c2 ≤ 1,
`schlick c2 η ≤ schlick c1 η`. -/
theorem C8_schlick_monotone (η c1 c2 : ℝ) (hη : 0 < η) (hη1 : η ≠ 1)
    (h0 : 0 ≤ c1) (h12 : c1 ≤ c2) (h1 : c2 ≤ 1) :
    schlick c2 η ≤ schlick c1 η := by
  unfold schlick
  have hr0 : ((1 - η) / (1 + η)) ^ 2 < 1 := r0_lt_one η hη
  have hpow : (1 - c2) ^ 5 ≤ (1 - c1) ^ 5 :=
    pow_le_pow_left (by linarith) (by linarith) 5
  nlinarith [hpow, hr0]

/-- Witness for C8 at η = 3/2, c1 = 0, c2 = 1. -/
theorem C8_schlick_monotone_witness :
    ((0 : ℝ) < 3 / 2 ∧ (3 / 2 : ℝ) ≠ 1 ∧ (0 : ℝ) ≤ 0 ∧ (0 : ℝ) ≤ 1 ∧ (1 : ℝ) ≤ 1) ∧
      schlick 1 (3 / 2) ≤ schlick 0 (3 / 2) :=
  ⟨⟨by norm_num, by norm_num, le_refl 0, by norm_num, le_refl 1⟩,
    C8_schlick_monotone (3 / 2) 0 1 (by norm_num) (by norm_num) (le_refl 0)
      (by norm_num) (le_refl 1)⟩

/-! ### Dispatcher claims -/

theorem scatterBranch_bounces (ps : PathSegment) (i n : Vec3) (m : Material)
    (rng : RNG) :
    (scatterBranch ps i n m rng).1.remainingBounces = ps.remainingBounces := by
  unfold scatterBranch specularBSDF schlickBSDF lambertianBSDF
  split_ifs <;> rfl

theorem scatterBranch_pixel (ps : PathSegment) (i n : Vec3) (m : Material)
    (rng : RNG) :
    (scatterBranch ps i n m rng).1.pixelIndex = ps.pixelIndex := by
  unfold scatterBranch specularBSDF schlickBSDF lambertianBSDF
  split_ifs <;> rfl

theorem scatterBranch_rng (ps : PathSegment) (i n : Vec3) (m : Material)
    (rng : RNG) :
    (scatterBranch ps i n m rng).2.draws = rng.draws ∧
      rng.idx ≤ (scatterBranch ps i n m rng).2.idx := by
  unfold scatterBranch
  split_ifs
  · exact ⟨rfl, le_refl _⟩
  · refine ⟨rfl, ?_⟩
    show rng.idx ≤ rng.idx + 1
    omega
  · refine ⟨rfl, ?_⟩
    show rng.idx ≤ rng.idx + 1 + 1
    omega

theorem clamp1_nonneg (x : ℝ) : 0 ≤ clamp1 x 0 1 :=
  le_min (le_max_right x 0) zero_le_one

theorem clamp1_le_one (x : ℝ) : clamp1 x 0 1 ≤ 1 :=
  min_le_right _ 1

/-- C3: dispatcher precedence.  A material with both flags set follows the
specular-reflective path (so `schlickBSDF` is never invoked for it); with
only `hasRefractive` set the dielectric path is taken; with neither flag set
the diffuse path is taken. -/
theorem C3_dispatch_precedence (ps : PathSegment) (i n : Vec3) (m : Material)
    (rng : RNG) :
    (m.hasReflective = 1 → m.hasRefractive = 1 →
      scatterRay ps i n m rng =
        dispatchPost m (specularBSDF ps i n m (u01 rng).2)) ∧
    (m.hasReflective ≠ 1 → m.hasRefractive = 1 →
      scatterRay ps i n m rng =
        dispatchPost m (schlickBSDF ps i n m (u01 rng).2)) ∧
    (m.hasReflective ≠ 1 → m.hasRefractive ≠ 1 →
      scatterRay ps i n m rng =
        dispatchPost m (lambertianBSDF ps i n m (u01 rng).2)) := by
  refine ⟨fun h1 _ => ?_, fun h1 h2 => ?_, fun h1 h2 => ?_⟩
  · unfold scatterRay scatterBranch
    simp [h1]
  · unfold scatterRay scatterBranch
    simp [h1, h2]
  · unfold scatterRay scatterBranch
    simp [h1, h2]

/-- Concrete sample inputs for the witnesses. -/
def rng0 : RNG := ⟨fun _ => 0, 0⟩

def ps0 : PathSegment := ⟨⟨⟨0, 0, 0⟩, ⟨0, 0, -1⟩⟩, ⟨1, 1, 1⟩, 0, 8⟩

def i0 : Vec3 := ⟨0, 0, 0⟩

def n0 : Vec3 := ⟨0, 0, 1⟩

def mBoth : Material := ⟨⟨1, 1, 1⟩, ⟨⟨1, 1, 1⟩⟩, 1, 1, 3 / 2⟩

def mDiffuseHalf : Material := ⟨⟨1, 1, 1⟩, ⟨⟨1, 1, 1⟩⟩, 1 / 2, 2, 3 / 2⟩

/-- Witness for C3: a material with both flags set to 1 resolves to the
specular-reflective path. -/
theorem C3_dispatch_precedence_witness :
    (mBoth.hasReflective = 1 ∧ mBoth.hasRefractive = 1) ∧
      scatterRay ps0 i0 n0 mBoth rng0 =
        dispatchPost mBoth (specularBSDF ps0 i0 n0 mBoth (u01 rng0).2) :=
  ⟨⟨rfl, rfl⟩, (C3_dispatch_precedence ps0 i0 n0 mBoth rng0).1 rfl rfl⟩

/-- C4: after every `scatterRay` call, whichever branch was taken, the
remaining-bounce counter has gone down by exactly 1, the color is the
component-wise clamp to [0,1] of the branch result's color multiplied by the
material base color (so the clamp is applied once, by the dispatcher, after
the base-color multiply, and not inside the per-material functions), and
each color component lies in [0,1]. -/
theorem C4_dispatch_post (ps : PathSegment) (i n : Vec3) (m : Material)
    (rng : RNG) :
    (scatterRay ps i n m rng).1.remainingBounces = ps.remainingBounces - 1 ∧
    (scatterRay ps i n m rng).1.color =
      clampV (cmul (scatterBranch ps i n m (u01 rng).2).1.color m.color)
        ⟨0, 0, 0⟩ ⟨1, 1, 1⟩ ∧
    (0 ≤ (scatterRay ps i n m rng).1.color.x ∧
        (scatterRay ps i n m rng).1.color.x ≤ 1) ∧
    (0 ≤ (scatterRay ps i n m rng).1.color.y ∧
        (scatterRay ps i n m rng).1.color.y ≤ 1) ∧
    (0 ≤ (scatterRay ps i n m rng).1.color.z ∧
        (scatterRay ps i n m rng).1.color.z ≤ 1) := by
  refine ⟨?_, rfl, ?_, ?_, ?_⟩
  · show (scatterBranch ps i n m (u01 rng).2).1.remainingBounces - 1 =
      ps.remainingBounces - 1
    rw [scatterBranch_bounces]
  all_goals exact ⟨clamp1_nonneg _, clamp1_le_one _⟩

/-- C9: the dispatcher tests each flag by float equality with 1.0, so a
material whose flag values both differ from 1.0 (even nonzero ones such as
0.5 or 2.0) takes the diffuse branch. -/
theorem C9_flag_exact_one (ps : PathSegment) (i n : Vec3) (m : Material)
    (rng : RNG) (h1 : m.hasReflective ≠ 1) (h2 : m.hasRefractive ≠ 1) :
    scatterRay ps i n m rng =
      dispatchPost m (lambertianBSDF ps i n m (u01 rng).2) := by
  unfold scatterRay scatterBranch
  simp [h1, h2]

/-- Witness for C9: nonzero flags 0.5 and 2.0 still resolve to the diffuse
branch. -/
theorem C9_flag_exact_one_witness :
    (mDiffuseHalf.hasReflective ≠ 1 ∧ mDiffuseHalf.hasRefractive ≠ 1) ∧
      scatterRay ps0 i0 n0 mDiffuseHalf rng0 =
        dispatchPost mDiffuseHalf (lambertianBSDF ps0 i0 n0 mDiffuseHalf (u01 rng0).2) :=
  ⟨⟨by norm_num [mDiffuseHalf], by norm_num [mDiffuseHalf]⟩,
    C9_flag_exact_one ps0 i0 n0 mDiffuseHalf rng0
      (by norm_num [mDiffuseHalf]) (by norm_num [mDiffuseHalf])⟩

/-- C10: frame condition of `scatterRay`.  Only the ray, color and
remaining-bounce counter of the `PathSegment` and the RNG cursor change: the
segment's other bookkeeping datum (`pixelIndex`) is untouched, the underlying
draw stream is untouched, and the RNG only moves forward.  The material,
intersection point and normal are plain read-only inputs of the embedding. -/
theorem C10_frame (ps : PathSegment) (i n : Vec3) (m : Material) (rng : RNG) :
    (scatterRay ps i n m rng).1.pixelIndex = ps.pixelIndex ∧
    (scatterRay ps i n m rng).2.draws = rng.draws ∧
    rng.idx ≤ (scatterRay ps i n m rng).2.idx := by
  have hb := scatterBranch_rng ps i n m (u01 rng).2
  refine ⟨?_, ?_, ?_⟩
  · show (scatterBranch ps i n m (u01 rng).2).1.pixelIndex = ps.pixelIndex
    exact scatterBranch_pixel ps i n m (u01 rng).2
  · show (scatterBranch ps i n m (u01 rng).2).2.draws = rng.draws
    exact hb.1
  · show rng.idx ≤ (scatterBranch ps i n m (u01 rng).2).2.idx
    exact le_trans (Nat.le_succ rng.idx) hb.2

/-! ### Dielectric scatter claims -/

/-- Total-internal-reflection behaviour of `schlickBSDF`, for any RNG: the
color is zeroed and the direction is the mirror reflection about the
original normal. -/
theorem schlickBSDF_tir (ps : PathSegment) (i n : Vec3) (m : Material)
    (rng : RNG)
    (h : length (schlickRefractDir ps.ray.direction n m.indexOfRefraction) < 0.01) :
    (schlickBSDF ps i n m rng).1.color = ⟨0, 0, 0⟩ ∧
      (schlickBSDF ps i n m rng).1.ray.direction = reflect ps.ray.direction n := by
  unfold schlickBSDF
  simp only [if_pos h]
  constructor
  · show cmul (smul 0 ps.color) m.specular.color = ⟨0, 0, 0⟩
    simp [cmul, smul]
  · show (if _ < _ then reflect ps.ray.direction n else reflect ps.ray.direction n) = _
    rw [ite_self]

/-- C1: whenever the refracted direction computed inside `schlickBSDF` has
length below the 0.01 threshold (total internal reflection), the path color
is zeroed and the new ray direction is the mirror reflection of the original
incident direction about the original (unflipped) normal, for every value of
the subsequently drawn uniform sample; and when the dispatcher routed to the
dielectric branch, the color is still zero and the direction still the
mirror reflection after the dispatcher's specular-color and base-color
multiplies and clamp. -/
theorem C1_tir_zero_color_mirror (ps : PathSegment) (i n : Vec3)
    (m : Material) (rng : RNG)
    (h : length (schlickRefractDir ps.ray.direction n m.indexOfRefraction) < 0.01) :
    (schlickBSDF ps i n m rng).1.color = ⟨0, 0, 0⟩ ∧
    (schlickBSDF ps i n m rng).1.ray.direction = reflect ps.ray.direction n ∧
    (m.hasReflective ≠ 1 → m.hasRefractive = 1 →
      (scatterRay ps i n m rng).1.color = ⟨0, 0, 0⟩ ∧
      (scatterRay ps i n m rng).1.ray.direction = reflect ps.ray.direction n) := by
  obtain ⟨hc, hd⟩ := schlickBSDF_tir ps i n m rng h
  refine ⟨hc, hd, fun h1 h2 => ?_⟩
  obtain ⟨hc1, hd1⟩ := schlickBSDF_tir ps i n m (u01 rng).2 h
  have hroute : scatterRay ps i n m rng =
      dispatchPost m (schlickBSDF ps i n m (u01 rng).2) := by
    unfold scatterRay scatterBranch
    simp [h1, h2]
  rw [hroute]
  constructor
  · show clampV (cmul (schlickBSDF ps i n m (u01 rng).2).1.color m.color)
      ⟨0, 0, 0⟩ ⟨1, 1, 1⟩ = ⟨0, 0, 0⟩
    rw [hc1]
    simp [clampV, clamp1, cmul]
  · exact hd1

/-- C2: whenever refraction succeeds in `schlickBSDF` (refracted length at
least 0.01), the new direction is the mirror reflection of the original
direction about the original normal exactly when the Schlick reflectance of
the raw dot product of the original direction with the original normal and
the material's index of refraction is strictly below the freshly drawn
uniform sample, and the computed refracted direction otherwise; the new
origin is the intersection point plus `EPSILON` times the chosen direction;
the color is multiplied component-wise by the specular color; and exactly
one uniform sample was drawn. -/
theorem C2_refraction_success (ps : PathSegment) (i n : Vec3) (m : Material)
    (rng : RNG)
    (h : ¬ length (schlickRefractDir ps.ray.direction n m.indexOfRefraction) < 0.01) :
    (schlickBSDF ps i n m rng).1.ray.direction =
      (if schlick (dot ps.ray.direction n) m.indexOfRefraction < rng.draws rng.idx
        then reflect ps.ray.direction n
        else schlickRefractDir ps.ray.direction n m.indexOfRefraction) ∧
    (schlickBSDF ps i n m rng).1.ray.origin =
      add i (smul EPSILON (schlickBSDF ps i n m rng).1.ray.direction) ∧
    (schlickBSDF ps i n m rng).1.color = cmul ps.color m.specular.color ∧
    (schlickBSDF ps i n m rng).2 = ⟨rng.draws, rng.idx + 1⟩ := by
  unfold schlickBSDF
  simp only [if_neg h]
  and_intros <;> trivial

/-! ### Concrete evaluation lemmas for the dielectric witnesses -/

theorem normalize_of_unit (v : Vec3) (h : dot v v = 1) : normalize v = v := by
  unfold normalize length
  rw [h, Real.sqrt_one]
  cases v
  simp [smul]

/-- Concrete inputs: a ray inside glass beyond the critical angle, and a
head-on ray entering glass. -/
def mGlass : Material := ⟨⟨1, 1, 1⟩, ⟨⟨1, 1, 1⟩⟩, 0, 1, 3 / 2⟩

def psTIR : PathSegment := ⟨⟨⟨0, 0, 0⟩, ⟨4, 0, 3⟩⟩, ⟨1, 1, 1⟩, 0, 8⟩

/-- At incident direction (4,0,3), normal (0,0,1) and η = 3/2 the Snell
computation inside `schlickBSDF` fails (total internal reflection) and the
refracted direction is the zero vector. -/
theorem refractDir_tir_input :
    schlickRefractDir ⟨4, 0, 3⟩ ⟨0, 0, 1⟩ (3 / 2) = ⟨0, 0, 0⟩ := by
  have hdot : dot (⟨4, 0, 3⟩ : Vec3) ⟨0, 0, 1⟩ > 0 := by norm_num [dot]
  unfold schlickRefractDir schlickEta schlickOutwardNormal
  rw [if_pos hdot, if_pos hdot]
  have h1 : smul (-1 : ℝ) (⟨0, 0, 1⟩ : Vec3) = ⟨0, 0, -1⟩ := by
    norm_num [smul]
  rw [h1, normalize_of_unit ⟨0, 0, -1⟩ (by norm_num [dot])]
  have h2 : normalize (⟨4, 0, 3⟩ : Vec3) = ⟨4 / 5, 0, 3 / 5⟩ := by
    unfold normalize length
    have hd : dot (⟨4, 0, 3⟩ : Vec3) ⟨4, 0, 3⟩ = 25 := by norm_num [dot]
    rw [hd, show (25 : ℝ) = 5 ^ 2 by norm_num,
      Real.sqrt_sq (by norm_num : (0 : ℝ) ≤ 5)]
    norm_num [smul]
  rw [h2]
  unfold refract
  rw [if_pos]
  norm_num [dot]

/-- At incident direction (0,0,-1), normal (0,0,1) and η = 3/2 the Snell
computation succeeds and returns the straight-through direction (0,0,-1). -/
theorem refractDir_head_on :
    schlickRefractDir ⟨0, 0, -1⟩ ⟨0, 0, 1⟩ (3 / 2) = ⟨0, 0, -1⟩ := by
  have hdot : ¬ dot (⟨0, 0, -1⟩ : Vec3) ⟨0, 0, 1⟩ > 0 := by norm_num [dot]
  unfold schlickRefractDir schlickEta schlickOutwardNormal
  rw [if_neg hdot, if_neg hdot]
  rw [normalize_of_unit ⟨0, 0, 1⟩ (by norm_num [dot]),
    normalize_of_unit ⟨0, 0, -1⟩ (by norm_num [dot])]
  unfold refract
  rw [if_neg]
  · have hd : dot (⟨0, 0, 1⟩ : Vec3) ⟨0, 0, -1⟩ = -1 := by norm_num [dot]
    rw [hd]
    have hk : (1 : ℝ) - 1 / (3 / 2) * (1 / (3 / 2)) * (1 - -1 * -1) = 1 := by
      norm_num
    rw [hk, Real.sqrt_one]
    norm_num [sub, smul]
  · have hd : dot (⟨0, 0, 1⟩ : Vec3) ⟨0, 0, -1⟩ = -1 := by norm_num [dot]
    rw [hd]
    norm_num

/-- Witness for C1 at the total-internal-reflection input. -/
theorem C1_tir_zero_color_mirror_witness :
    (length (schlickRefractDir psTIR.ray.direction n0 mGlass.indexOfRefraction) < 0.01 ∧
      mGlass.hasReflective ≠ 1 ∧ mGlass.hasRefractive = 1) ∧
    (schlickBSDF psTIR i0 n0 mGlass rng0).1.color = ⟨0, 0, 0⟩ ∧
    (schlickBSDF psTIR i0 n0 mGlass rng0).1.ray.direction =
      reflect psTIR.ray.direction n0 ∧
    (scatterRay psTIR i0 n0 mGlass rng0).1.color = ⟨0, 0, 0⟩ ∧
    (scatterRay psTIR i0 n0 mGlass rng0).1.ray.direction =
      reflect psTIR.ray.direction n0 := by
  have hlen : length (schlickRefractDir psTIR.ray.direction n0 mGlass.indexOfRefraction) < 0.01 := by
    show length (schlickRefractDir ⟨4, 0, 3⟩ ⟨0, 0, 1⟩ (3 / 2)) < 0.01
    rw [refractDir_tir_input]
    unfold length
    rw [show dot (⟨0, 0, 0⟩ : Vec3) ⟨0, 0, 0⟩ = 0 by norm_num [dot], Real.sqrt_zero]
    norm_num
  have h1 : mGlass.hasReflective ≠ 1 := by norm_num [mGlass]
  have h2 : mGlass.hasRefractive = 1 := rfl
  have base := C1_tir_zero_color_mirror psTIR i0 n0 mGlass rng0 hlen
  exact ⟨⟨hlen, h1, h2⟩, base.1, base.2.1, (base.2.2 h1 h2).1, (base.2.2 h1 h2).2⟩

/-- Witness for C2 at the head-on refraction input. -/
theorem C2_refraction_success_witness :
    (¬ length (schlickRefractDir ps0.ray.direction n0 mGlass.indexOfRefraction) < 0.01) ∧
    ((schlickBSDF ps0 i0 n0 mGlass rng0).1.ray.direction =
      (if schlick (dot ps0.ray.direction n0) mGlass.indexOfRefraction <
          rng0.draws rng0.idx
        then reflect ps0.ray.direction n0
        else schlickRefractDir ps0.ray.direction n0 mGlass.indexOfRefraction) ∧
    (schlickBSDF ps0 i0 n0 mGlass rng0).1.ray.origin =
      add i0 (smul EPSILON (schlickBSDF ps0 i0 n0 mGlass rng0).1.ray.direction) ∧
    (schlickBSDF ps0 i0 n0 mGlass rng0).1.color = cmul ps0.color mGlass.specular.color ∧
    (schlickBSDF ps0 i0 n0 mGlass rng0).2 = ⟨rng0.draws, rng0.idx + 1⟩) := by
  have hlen : ¬ length (schlickRefractDir ps0.ray.direction n0 mGlass.indexOfRefraction) < 0.01 := by
    show ¬ length (schlickRefractDir ⟨0, 0, -1⟩ ⟨0, 0, 1⟩ (3 / 2)) < 0.01
    rw [refractDir_head_on]
    unfold length
    rw [show dot (⟨0, 0, -1⟩ : Vec3) ⟨0, 0, -1⟩ = 1 by norm_num [dot], Real.sqrt_one]
    norm_num
  exact ⟨hlen, C2_refraction_success ps0 i0 n0 mGlass rng0 hlen⟩

/-! ### The orthonormal basis built by the hemisphere sampler -/

theorem dot_smul_smul (a b : ℝ) (v w : Vec3) :
    dot (smul a v) (smul b w) = a * b * dot v w := by
  simp only [dot, smul]; ring

/-- The reference axis is unit length and is never parallel to a unit
normal: the square of its dot with the normal stays below 1. -/
theorem directionNotNormal_bound (n : Vec3) (hn : dot n n = 1) :
    dot (directionNotNormal n) (directionNotNormal n) = 1 ∧
      dot n (directionNotNormal n) * dot n (directionNotNormal n) < 1 := by
  have hs2 : Real.sqrt (1 / 3) * Real.sqrt (1 / 3) = 1 / 3 :=
    Real.mul_self_sqrt (by norm_num)
  simp only [dot] at hn
  unfold directionNotNormal SQRT_OF_ONE_THIRD
  split_ifs with h1 h2
  · refine ⟨by norm_num [dot], ?_⟩
    have hx := mul_self_lt_mul_self (abs_nonneg n.x) h1
    rw [abs_mul_abs_self, hs2] at hx
    simp only [dot]
    nlinarith
  · refine ⟨by norm_num [dot], ?_⟩
    have hy := mul_self_lt_mul_self (abs_nonneg n.y) h2
    rw [abs_mul_abs_self, hs2] at hy
    simp only [dot]
    nlinarith
  · refine ⟨by norm_num [dot], ?_⟩
    have hx := mul_self_le_mul_self (Real.sqrt_nonneg _) (le_of_not_lt h1)
    have hy := mul_self_le_mul_self (Real.sqrt_nonneg _) (le_of_not_lt h2)
    rw [hs2, abs_mul_abs_self] at hx hy
    simp only [dot]
    nlinarith

theorem perpendicularDirection1_unit (n : Vec3) (hn : dot n n = 1) :
    dot (perpendicularDirection1 n) (perpendicularDirection1 n) = 1 := by
  unfold perpendicularDirection1
  apply dot_normalize_self
  rw [cross_norm_sq]
  obtain ⟨hd, hb⟩ := directionNotNormal_bound n hn
  rw [hn, hd]
  nlinarith

theorem perpendicularDirection1_orth (n : Vec3) :
    dot n (perpendicularDirection1 n) = 0 := by
  unfold perpendicularDirection1
  rw [dot_comm, dot_normalize_left, cross_dot_self_left, mul_zero]

theorem cross_perp1_sq (n : Vec3) (hn : dot n n = 1) :
    dot (cross n (perpendicularDirection1 n)) (cross n (perpendicularDirection1 n)) = 1 := by
  rw [cross_norm_sq, hn, perpendicularDirection1_unit n hn,
    perpendicularDirection1_orth n]
  ring

theorem perpendicularDirection2_unit (n : Vec3) (hn : dot n n = 1) :
    dot (perpendicularDirection2 n) (perpendicularDirection2 n) = 1 := by
  unfold perpendicularDirection2
  apply dot_normalize_self
  rw [cross_perp1_sq n hn]
  norm_num

theorem perpendicularDirection2_orth_n (n : Vec3) :
    dot n (perpendicularDirection2 n) = 0 := by
  unfold perpendicularDirection2
  rw [dot_comm, dot_normalize_left, cross_dot_self_left, mul_zero]

theorem perpendicularDirection2_orth_p1 (n : Vec3) :
    dot (perpendicularDirection1 n) (perpendicularDirection2 n) = 0 := by
  unfold perpendicularDirection2
  rw [dot_comm, dot_normalize_left, cross_dot_self_right, mul_zero]

theorem dot_lincomb_self (α β γ : ℝ) (a b c : Vec3) :
    dot (add (smul α a) (add (smul β b) (smul γ c)))
        (add (smul α a) (add (smul β b) (smul γ c))) =
      α * α * dot a a + β * β * dot b b + γ * γ * dot c c +
        2 * (α * β) * dot a b + 2 * (α * γ) * dot a c +
        2 * (β * γ) * dot b c := by
  simp only [dot, add, smul]; ring

theorem dot_lincomb_left (α β γ : ℝ) (a b c w : Vec3) :
    dot (add (smul α a) (add (smul β b) (smul γ c))) w =
      α * dot a w + β * dot b w + γ * dot c w := by
  simp only [dot, add, smul]; ring

/-- The hemisphere sample has unit squared length whenever the first draw
lies in [0,1]. -/
theorem hemisphere_dot_self (n : Vec3) (rng : RNG) (hn : dot n n = 1)
    (h0 : 0 ≤ rng.draws rng.idx) (h1 : rng.draws rng.idx ≤ 1) :
    dot (calculateRandomDirectionInHemisphere n rng).1
      (calculateRandomDirectionInHemisphere n rng).1 = 1 := by
  have hshow : (calculateRandomDirectionInHemisphere n rng).1 =
      add (smul (Real.sqrt (rng.draws rng.idx)) n)
        (add
          (smul (Real.cos (rng.draws (rng.idx + 1) * TWO_PI) *
              Real.sqrt (1 - Real.sqrt (rng.draws rng.idx) * Real.sqrt (rng.draws rng.idx)))
            (perpendicularDirection1 n))
          (smul (Real.sin (rng.draws (rng.idx + 1) * TWO_PI) *
              Real.sqrt (1 - Real.sqrt (rng.draws rng.idx) * Real.sqrt (rng.draws rng.idx)))
            (perpendicularDirection2 n))) := rfl
  rw [hshow, dot_lincomb_self, hn, perpendicularDirection1_unit n hn,
    perpendicularDirection2_unit n hn, perpendicularDirection1_orth n,
    perpendicularDirection2_orth_n n, perpendicularDirection2_orth_p1 n]
  have hup : Real.sqrt (rng.draws rng.idx) * Real.sqrt (rng.draws rng.idx) =
      rng.draws rng.idx := Real.mul_self_sqrt h0
  have hover :
      Real.sqrt (1 - Real.sqrt (rng.draws rng.idx) * Real.sqrt (rng.draws rng.idx)) *
        Real.sqrt (1 - Real.sqrt (rng.draws rng.idx) * Real.sqrt (rng.draws rng.idx)) =
      1 - Real.sqrt (rng.draws rng.idx) * Real.sqrt (rng.draws rng.idx) := by
    apply Real.mul_self_sqrt
    rw [hup]
    linarith
  have hcs : Real.cos (rng.draws (rng.idx + 1) * TWO_PI) *
        Real.cos (rng.draws (rng.idx + 1) * TWO_PI) +
      Real.sin (rng.draws (rng.idx + 1) * TWO_PI) *
        Real.sin (rng.draws (rng.idx + 1) * TWO_PI) = 1 := by
    have h := Real.sin_sq_add_cos_sq (rng.draws (rng.idx + 1) * TWO_PI)
    nlinarith [h]
  linear_combination
    (Real.cos (rng.draws (rng.idx + 1) * TWO_PI) *
        Real.cos (rng.draws (rng.idx + 1) * TWO_PI) +
      Real.sin (rng.draws (rng.idx + 1) * TWO_PI) *
        Real.sin (rng.draws (rng.idx + 1) * TWO_PI)) * hover +
    (1 - Real.sqrt (rng.draws rng.idx) * Real.sqrt (rng.draws rng.idx)) * hcs

/-- The hemisphere sample never points below the normal's plane. -/
theorem hemisphere_dot_nonneg (n : Vec3) (rng : RNG) (hn : dot n n = 1) :
    0 ≤ dot (calculateRandomDirectionInHemisphere n rng).1 n := by
  have hshow : dot (calculateRandomDirectionInHemisphere n rng).1 n =
      Real.sqrt (rng.draws rng.idx) * dot n n +
        Real.cos (rng.draws (rng.idx + 1) * TWO_PI) *
          Real.sqrt (1 - Real.sqrt (rng.draws rng.idx) * Real.sqrt (rng.draws rng.idx)) *
          dot (perpendicularDirection1 n) n +
        Real.sin (rng.draws (rng.idx + 1) * TWO_PI) *
          Real.sqrt (1 - Real.sqrt (rng.draws rng.idx) * Real.sqrt (rng.draws rng.idx)) *
          dot (perpendicularDirection2 n) n :=
    dot_lincomb_left _ _ _ _ _ _ _
  rw [hshow, hn, dot_comm (perpendicularDirection1 n) n,
    perpendicularDirection1_orth n, dot_comm (perpendicularDirection2 n) n,
    perpendicularDirection2_orth_n n]
  have := Real.sqrt_nonneg (rng.draws rng.idx)
  nlinarith

/-- C5: for every unit normal and every RNG stream of uniform [0,1) draws,
the cosine-weighted hemisphere sampler returns a unit-length vector whose
dot product with the normal is at least 0. -/
theorem C5_hemisphere_sampler (n : Vec3) (rng : RNG) (hn : length n = 1)
    (hr : ∀ j, 0 ≤ rng.draws j ∧ rng.draws j < 1) :
    length (calculateRandomDirectionInHemisphere n rng).1 = 1 ∧
      0 ≤ dot (calculateRandomDirectionInHemisphere n rng).1 n := by
  have hn1 : dot n n = 1 := (length_eq_one_iff n).mp hn
  constructor
  · exact (length_eq_one_iff _).mpr
      (hemisphere_dot_self n rng hn1 (hr rng.idx).1 (le_of_lt (hr rng.idx).2))
  · exact hemisphere_dot_nonneg n rng hn1

/-- Witness for C5 at the normal (0,0,1) with the all-zero draw stream. -/
theorem C5_hemisphere_sampler_witness :
    (length n0 = 1 ∧ ∀ j, 0 ≤ rng0.draws j ∧ rng0.draws j < 1) ∧
      length (calculateRandomDirectionInHemisphere n0 rng0).1 = 1 ∧
      0 ≤ dot (calculateRandomDirectionInHemisphere n0 rng0).1 n0 := by
  have hn : length n0 = 1 := by
    unfold length
    rw [show dot n0 n0 = 1 by norm_num [n0, dot], Real.sqrt_one]
  have hr : ∀ j, 0 ≤ rng0.draws j ∧ rng0.draws j < 1 := fun j =>
    ⟨le_refl 0, by norm_num [rng0]⟩
  exact ⟨⟨hn, hr⟩, C5_hemisphere_sampler n0 rng0 hn hr⟩

/-! ### Unit length of scattered directions -/

/-- Mirror reflection preserves unit length. -/
theorem reflect_unit (d n : Vec3) (hd : dot d d = 1) (hn : dot n n = 1) :
    dot (reflect d n) (reflect d n) = 1 := by
  simp only [dot] at hd hn
  simp only [reflect, sub, smul, dot]
  linear_combination hd + 4 * (n.x * d.x + n.y * d.y + n.z * d.z) ^ 2 * hn

/-- When Snell's law succeeds, `refract` of unit vectors is unit. -/
theorem refract_unit (I N : Vec3) (η : ℝ) (hI : dot I I = 1) (hN : dot N N = 1)
    (hk : ¬ 1 - η * η * (1 - dot N I * dot N I) < 0) :
    dot (refract I N η) (refract I N η) = 1 := by
  have hs : Real.sqrt (1 - η * η * (1 - dot N I * dot N I)) *
        Real.sqrt (1 - η * η * (1 - dot N I * dot N I)) =
      1 - η * η * (1 - dot N I * dot N I) :=
    Real.mul_self_sqrt (le_of_not_lt hk)
  unfold refract
  rw [if_neg hk]
  simp only [dot, sub, smul] at hI hN hs ⊢
  linear_combination (η * η) * hI +
    (η * (N.x * I.x + N.y * I.y + N.z * I.z) +
        Real.sqrt (1 - η * η *
          (1 - (N.x * I.x + N.y * I.y + N.z * I.z) *
            (N.x * I.x + N.y * I.y + N.z * I.z)))) ^ 2 * hN +
    hs

/-- The direction written by `schlickBSDF`, unfolded. -/
theorem schlickBSDF_direction (ps : PathSegment) (i n : Vec3) (m : Material)
    (rng : RNG) :
    (schlickBSDF ps i n m rng).1.ray.direction =
      if schlick (dot ps.ray.direction n) m.indexOfRefraction < rng.draws rng.idx
      then reflect ps.ray.direction n
      else
        if length (schlickRefractDir ps.ray.direction n m.indexOfRefraction) < 0.01
        then reflect ps.ray.direction n
        else schlickRefractDir ps.ray.direction n m.indexOfRefraction := rfl

/-- The outward normal built by the dielectric branch is unit. -/
theorem schlickOutwardNormal_unit (d n : Vec3) (hn : dot n n = 1) :
    dot (schlickOutwardNormal d n) (schlickOutwardNormal d n) = 1 := by
  unfold schlickOutwardNormal
  split_ifs
  · apply dot_normalize_self
    rw [dot_smul_smul, hn]
    norm_num
  · apply dot_normalize_self
    rw [hn]
    exact one_ne_zero

/-- The direction written by `schlickBSDF` is unit whenever the incoming
direction and the normal are unit. -/
theorem schlickBSDF_dir_unit (ps : PathSegment) (i n : Vec3) (m : Material)
    (rng : RNG) (hd : dot ps.ray.direction ps.ray.direction = 1)
    (hn : dot n n = 1) :
    dot (schlickBSDF ps i n m rng).1.ray.direction
      (schlickBSDF ps i n m rng).1.ray.direction = 1 := by
  rw [schlickBSDF_direction]
  have hrefl := reflect_unit ps.ray.direction n hd hn
  split_ifs with hp ht
  · exact hrefl
  · exact hrefl
  · unfold schlickRefractDir
    by_cases hk : 1 - schlickEta ps.ray.direction n m.indexOfRefraction *
          schlickEta ps.ray.direction n m.indexOfRefraction *
          (1 - dot (schlickOutwardNormal ps.ray.direction n) (normalize ps.ray.direction) *
            dot (schlickOutwardNormal ps.ray.direction n) (normalize ps.ray.direction)) < 0
    · exfalso
      apply ht
      unfold schlickRefractDir refract
      rw [if_pos hk]
      unfold length
      rw [show dot (⟨0, 0, 0⟩ : Vec3) ⟨0, 0, 0⟩ = 0 by norm_num [dot],
        Real.sqrt_zero]
      norm_num
    · apply refract_unit
      · exact dot_normalize_self ps.ray.direction (by rw [hd]; exact one_ne_zero)
      · exact schlickOutwardNormal_unit ps.ray.direction n hn
      · exact hk

/-- C7: after each of the three per-material scatter functions, and hence
after every `scatterRay` call, the stored ray direction is unit length,
given a unit incoming direction, a unit normal and uniform [0,1) draws. -/
theorem C7_unit_directions (ps : PathSegment) (i n : Vec3) (m : Material)
    (rng : RNG) (hd : length ps.ray.direction = 1) (hn : length n = 1)
    (hr : ∀ j, 0 ≤ rng.draws j ∧ rng.draws j < 1) :
    length (lambertianBSDF ps i n m rng).1.ray.direction = 1 ∧
    length (specularBSDF ps i n m rng).1.ray.direction = 1 ∧
    length (schlickBSDF ps i n m rng).1.ray.direction = 1 ∧
    length (scatterRay ps i n m rng).1.ray.direction = 1 := by
  have hd1 : dot ps.ray.direction ps.ray.direction = 1 :=
    (length_eq_one_iff _).mp hd
  have hn1 : dot n n = 1 := (length_eq_one_iff n).mp hn
  have hlamb : ∀ r : RNG, (∀ j, 0 ≤ r.draws j ∧ r.draws j < 1) →
      length (lambertianBSDF ps i n m r).1.ray.direction = 1 := by
    intro r hrr
    show length (calculateRandomDirectionInHemisphere n r).1 = 1
    exact (length_eq_one_iff _).mpr
      (hemisphere_dot_self n r hn1 (hrr r.idx).1 (le_of_lt (hrr r.idx).2))
  have hspec : ∀ r : RNG,
      length (specularBSDF ps i n m r).1.ray.direction = 1 := by
    intro r
    show length (reflect ps.ray.direction n) = 1
    exact (length_eq_one_iff _).mpr (reflect_unit ps.ray.direction n hd1 hn1)
  have hschl : ∀ r : RNG,
      length (schlickBSDF ps i n m r).1.ray.direction = 1 := fun r =>
    (length_eq_one_iff _).mpr (schlickBSDF_dir_unit ps i n m r hd1 hn1)
  refine ⟨hlamb rng hr, hspec rng, hschl rng, ?_⟩
  have hr1 : ∀ j, 0 ≤ ((u01 rng).2).draws j ∧ ((u01 rng).2).draws j < 1 := hr
  show length (scatterBranch ps i n m (u01 rng).2).1.ray.direction = 1
  unfold scatterBranch
  split_ifs
  · exact hspec (u01 rng).2
  · exact hschl (u01 rng).2
  · exact hlamb (u01 rng).2 hr1

/-- Witness for C7 at direction (0,0,-1), normal (0,0,1), glass material and
the all-zero draw stream. -/
theorem C7_unit_directions_witness :
    (length ps0.ray.direction = 1 ∧ length n0 = 1 ∧
      ∀ j, 0 ≤ rng0.draws j ∧ rng0.draws j < 1) ∧
    length (lambertianBSDF ps0 i0 n0 mGlass rng0).1.ray.direction = 1 ∧
    length (specularBSDF ps0 i0 n0 mGlass rng0).1.ray.direction = 1 ∧
    length (schlickBSDF ps0 i0 n0 mGlass rng0).1.ray.direction = 1 ∧
    length (scatterRay ps0 i0 n0 mGlass rng0).1.ray.direction = 1 := by
  have hd : length ps0.ray.direction = 1 := by
    unfold length
    rw [show dot ps0.ray.direction ps0.ray.direction = 1 by norm_num [ps0, dot],
      Real.sqrt_one]
  have hn : length n0 = 1 := by
    unfold length
    rw [show dot n0 n0 = 1 by norm_num [n0, dot], Real.sqrt_one]
  have hr : ∀ j, 0 ≤ rng0.draws j ∧ rng0.draws j < 1 := fun j =>
    ⟨le_refl 0, by norm_num [rng0]⟩
  exact ⟨⟨hd, hn, hr⟩, C7_unit_directions ps0 i0 n0 mGlass rng0 hd hn hr⟩

end

end PathTracer
